import Mathlib

/-!
Shallow embedding of the easy-logging library (src/simple-logging.ts and
src/context-logging.ts): severity levels, pino-style gating and mixin
attachments, record formatting, error serialization through the optional
toJSON capability, and the per-context buffer engine of ContextLogger
(serialized records joined by the private delimiter, flushed on error).
-/

namespace EasyLogging

/-- Log severity levels, ordered debug < info < warn < error
(the `LogLevel` union type of src/simple-logging.ts). -/
inductive LogLevel
  | debug
  | info
  | warn
  | error
deriving DecidableEq

/-- Numeric severity, mirroring pino's ordering of the four levels. -/
def LogLevel.num : LogLevel → Nat
  | .debug => 0
  | .info => 1
  | .warn => 2
  | .error => 3

/-- The `Info` payload of src/simple-logging.ts: `{ name: string; details?: string }`.
The open `Record<string, unknown>` extension is modelled by these two fields,
which is the shape used throughout the repository's documentation. -/
structure Info where
  name : String
  details : Option String
deriving DecidableEq

/-- A formatted log record, the result of `SimpleLogger.formatLog`:
`{ time: datetime.nowUTC(), event: { ...info } }`. The timestamp is threaded
in as an argument since `datetime.nowUTC()` is an external collaborator. -/
structure Log where
  time : String
  event : Info
deriving DecidableEq

/-- Outcome of invoking an error value's optional `toJSON` capability.
`throws` models a capability that raises; `returns fs` models any returned
JavaScript value through the field list its object-spread contributes
(empty for primitives such as numbers or null). -/
inductive TJResult
  | throws
  | returns (fields : List (String × String))
deriving DecidableEq

/-- A JavaScript `Error` value as consumed by `SimpleLogger.serializeError`:
its `name`, its `message`, and the optional `toJSON` capability. -/
structure JSError where
  name : String
  message : String
  toJSON : Option TJResult
deriving DecidableEq

/-- The `ErrorInfo` payload of src/simple-logging.ts: `Info & { error: Error }`. -/
structure ErrorInfo where
  name : String
  details : Option String
  error : JSError
deriving DecidableEq

/-- The serialized error inside a formatted error record. -/
structure ErrorEvent where
  name : String
  details : Option String
  error : List (String × String)
deriving DecidableEq

/-- A formatted error record, the result of `SimpleLogger.formatErrorLog`. -/
structure ErrorLog where
  time : String
  event : ErrorEvent
deriving DecidableEq

/-- Payload carried by an emitted record: an ordinary formatted record or a
formatted error record (for replayed buffer segments, the object produced by
`JSON.parse` of the segment). -/
inductive Payload
  | log (l : Log)
  | errlog (e : ErrorLog)
deriving DecidableEq

/-- A record as observed by the sink: its level label, the attachment fields
contributed by pino's `mixin` at emission time, and the payload. -/
structure Emitted where
  level : LogLevel
  attachments : List (String × String)
  payload : Payload
deriving DecidableEq

/-- Effective logger configuration after `SimpleLogger.setup` applies its
defaults: `level ?? "info"`, `enabled: isEnabled ?? true`, the optional
`logAttachments` producer, and ContextLogger's `enableLogStreams` flag.
`prettyLog` is a cosmetic rendering hint with no behavioural effect and is
omitted. -/
structure Config where
  level : LogLevel
  isEnabled : Bool
  logAttachments : Option (Unit → List (String × String))
  enableLogStreams : Bool

/-- Pino's level gate: a record reaches the sink iff the logger is enabled
and the record's severity is at least the configured threshold. -/
def shouldEmit (cfg : Config) (lvl : LogLevel) : Bool :=
  cfg.isEnabled && decide (cfg.level.num ≤ lvl.num)

/-- The attachment map merged into every emitted record: pino's
`mixin() { return !!logAttachments ? logAttachments() : {} }`. -/
def mixinOf (cfg : Config) : List (String × String) :=
  match cfg.logAttachments with
  | none => []
  | some f => f ()

/-- Emission of one record through pino: gated by `shouldEmit`, tagged with
the level and the mixin attachments. -/
def emit (cfg : Config) (lvl : LogLevel) (p : Payload) : List Emitted :=
  if shouldEmit cfg lvl then [⟨lvl, mixinOf cfg, p⟩] else []

/-- The private delimiter `ContextLogger.LOG_SEP`. -/
def SEP : String := "<LOGEND>"

/-- The delimiter as a character sequence. -/
def sepL : List Char := SEP.toList

/-- Lowercase hexadecimal digit, as produced by `JSON.stringify` for
`\u00XX` escapes. -/
def hexDig (n : Nat) : Char :=
  if n < 10 then Char.ofNat (48 + n) else Char.ofNat (87 + n)

/-- JSON string-content escaping of one character, following
`JSON.stringify`: quote, backslash, the named control escapes, `\u00XX`
for the remaining control characters, and every other character verbatim. -/
def escChar (c : Char) : List Char :=
  if c = '\"' then ['\\', '\"']
  else if c = '\\' then ['\\', '\\']
  else if c = '\n' then ['\\', 'n']
  else if c = '\t' then ['\\', 't']
  else if c = '\r' then ['\\', 'r']
  else if c.toNat = 8 then ['\\', 'b']
  else if c.toNat = 12 then ['\\', 'f']
  else if c.toNat < 32 then ['\\', 'u', '0', '0', hexDig (c.toNat / 16), hexDig (c.toNat % 16)]
  else [c]

/-- Escaped character sequence of a string's content. -/
def escList (cs : List Char) : List Char :=
  (cs.map escChar).flatten

/-- A JSON string literal: quoted, escaped content. -/
def jstr (s : String) : String :=
  "\"" ++ String.mk (escList s.toList) ++ "\""

/-- `JSON.stringify` of a formatted record, with the key order produced by
`formatLog`'s object literals: `time` first, then `event` holding `name`
and, when present, `details`. -/
def serializeLog (l : Log) : String :=
  "\x7b\"time\":" ++ jstr l.time ++ ",\"event\":\x7b\"name\":" ++ jstr l.event.name ++
    (match l.event.details with
      | none => ""
      | some d => ",\"details\":" ++ jstr d) ++ "\x7d\x7d"

/-- One step of JavaScript `String.prototype.split` with a non-empty string
separator: scan left to right, cut at each leftmost occurrence. `skip`
counts separator characters still to be consumed after a cut. -/
def splitAux (sep : List Char) : List Char → Nat → List Char → List (List Char)
  | [], _, acc => [acc.reverse]
  | _ :: rest, skip + 1, acc => splitAux sep rest skip acc
  | c :: rest, 0, acc =>
    if sep.isPrefixOf (c :: rest) then
      acc.reverse :: splitAux sep rest (sep.length - 1) []
    else
      splitAux sep rest 0 (c :: acc)

/-- JavaScript `s.split(sep)` for a non-empty separator. -/
def jsSplit (sep s : String) : List String :=
  (splitAux sep.toList s.toList 0 []).map (fun cs => String.mk cs)

/-- Whether `pat` occurs as a contiguous subsequence of `s`. -/
def containsSeq (pat : List Char) : List Char → Bool
  | [] => pat.isEmpty
  | c :: rest => pat.isPrefixOf (c :: rest) || containsSeq pat rest

/-- Hexadecimal digit value accepted by the JSON string parser. -/
def unhex (c : Char) : Option Nat :=
  if '0' ≤ c ∧ c ≤ '9' then some (c.toNat - 48)
  else if 'a' ≤ c ∧ c ≤ 'f' then some (c.toNat - 87)
  else none

/-- Prepend a decoded character to a string-parse continuation. -/
def mapCons (ch : Char) : Option (List Char × List Char) → Option (List Char × List Char)
  | none => none
  | some p => some (ch :: p.1, p.2)

/-- Decode a single-character JSON escape (the character after the
backslash); `none` for escapes `JSON.stringify` never emits. -/
def unescSimple (e : Char) : Option Char :=
  if e = '\"' then some '\"'
  else if e = '\\' then some '\\'
  else if e = 'n' then some '\n'
  else if e = 't' then some '\t'
  else if e = 'r' then some '\r'
  else if e = 'b' then some (Char.ofNat 8)
  else if e = 'f' then some (Char.ofNat 12)
  else none

/-- Decode the four hexadecimal digits of a `\uXXXX` escape. -/
def parseHex4 : List Char → Option (Char × List Char)
  | h1 :: h2 :: h3 :: h4 :: rest =>
    match unhex h1, unhex h2, unhex h3, unhex h4 with
    | some a, some b, some c3, some d =>
      some (Char.ofNat (4096 * a + 256 * b + 16 * c3 + d), rest)
    | _, _, _, _ => none
  | _ => none

/-- Parse JSON string content after an opening quote: returns the unescaped
content and the remainder after the closing quote, or `none` when the
segment is truncated or malformed (modelling `JSON.parse` throwing). The
fuel argument only bounds recursion depth; every character consumes fuel,
so any fuel at least the input length is enough. -/
def parseJStrAux : Nat → List Char → Option (List Char × List Char)
  | 0, _ => none
  | fuel + 1, cs =>
    match cs with
    | [] => none
    | c :: rest =>
      if c = '\"' then some ([], rest)
      else if c = '\\' then
        match rest with
        | [] => none
        | e :: rest2 =>
          if e = 'u' then
            match parseHex4 rest2 with
            | none => none
            | some q => mapCons q.1 (parseJStrAux fuel q.2)
          else
            match unescSimple e with
            | none => none
            | some ch => mapCons ch (parseJStrAux fuel rest2)
      else mapCons c (parseJStrAux fuel rest)

/-- Fixed skeleton before the `time` string. -/
def skelTime : List Char := "\x7b\"time\":\"".toList

/-- Fixed skeleton between the `time` string and the `name` string. -/
def skelName : List Char := ",\"event\":\x7b\"name\":\"".toList

/-- Fixed skeleton before the `details` string. -/
def skelDetails : List Char := ",\"details\":\"".toList

/-- Fixed closing braces of a serialized record. -/
def skelEnd : List Char := "\x7d\x7d".toList

/-- Consume an expected literal character sequence. -/
def expects (pat cs : List Char) : Option (List Char) :=
  if pat.isPrefixOf cs then some (cs.drop pat.length) else none

/-- `JSON.parse` of one drained buffer segment, restricted to the exact
record grammar `serializeLog` emits; `none` models `JSON.parse` throwing.
Every segment on which this parser fails (truncated objects, unterminated
strings) is also rejected by JavaScript's `JSON.parse`. -/
def parseLog (s : String) : Option Log :=
  match expects skelTime s.toList with
  | none => none
  | some r1 =>
    match parseJStrAux r1.length r1 with
    | none => none
    | some (time, r2) =>
      match expects skelName r2 with
      | none => none
      | some r3 =>
        match parseJStrAux r3.length r3 with
        | none => none
        | some (nm, r4) =>
          if r4 = skelEnd then some ⟨String.mk time, ⟨String.mk nm, none⟩⟩
          else
            match expects skelDetails r4 with
            | none => none
            | some r5 =>
              match parseJStrAux r5.length r5 with
              | none => none
              | some (d, r6) =>
                if r6 = skelEnd then some ⟨String.mk time, ⟨String.mk nm, some (String.mk d)⟩⟩
                else none

/-- Base fields of a serialized error: `{ type: error.name, message: error.message }`. -/
def baseFields (e : JSError) : List (String × String) :=
  [("type", e.name), ("message", e.message)]

/-- JavaScript object spread `{ ...a, ...b }`: keys of `a` keep their
position with `b`'s value when overridden; new keys of `b` are appended in
order. -/
def spreadMerge (a b : List (String × String)) : List (String × String) :=
  a.map (fun p => match b.lookup p.1 with | some v => (p.1, v) | none => p) ++
    b.filter (fun p => !(a.any (fun q => q.1 == p.1)))

/-- `SimpleLogger.serializeError`: base fields, extended by spreading the
result of the optional `toJSON` capability. The code probes the capability
with `typeof error.toJSON === 'function'` but wraps the invocation in no
try/catch, so a throwing capability propagates (`Except.error`). -/
def serializeError (e : JSError) : Except Unit (List (String × String)) :=
  match e.toJSON with
  | none => Except.ok (baseFields e)
  | some TJResult.throws => Except.error ()
  | some (TJResult.returns fs) => Except.ok (spreadMerge (baseFields e) fs)

/-- `SimpleLogger.formatLog`: `{ time: datetime.nowUTC(), event: { ...info } }`. -/
def formatLog (t : String) (i : Info) : Log :=
  ⟨t, i⟩

/-- `SimpleLogger.formatErrorLog`: splits off the `error` field, serializes
it, and wraps the rest with the timestamp; propagates a `serializeError`
failure. -/
def formatErrorLog (t : String) (ei : ErrorInfo) : Except Unit ErrorLog :=
  match serializeError ei.error with
  | Except.error u => Except.error u
  | Except.ok se => Except.ok ⟨t, ⟨ei.name, ei.details, se⟩⟩

/-- A `SimpleLogger` call at `debug`/`info`/`warn` level: format, then emit
through pino's gate and mixin. -/
def simpleEmit (cfg : Config) (lvl : LogLevel) (t : String) (i : Info) : List Emitted :=
  emit cfg lvl (Payload.log (formatLog t i))

/-- `SimpleLogger.error`: the argument `formatErrorLog(info)` is evaluated
before `logger.error` is applied, so a serialization failure raises before
anything is emitted. The boolean records whether the call raised. -/
def simpleError (cfg : Config) (t : String) (ei : ErrorInfo) : List Emitted × Bool :=
  match formatErrorLog t ei with
  | Except.error _ => ([], true)
  | Except.ok el => (emit cfg LogLevel.error (Payload.errlog el), false)

/-- The `ContextLogger.logStreams` map: per execution identifier, the byte
content of the context's PassThrough stream (`none` when no stream exists). -/
def State : Type := String → Option String

/-- The registry before any stream is created. -/
def emptyState : State := fun _ => none

/-- Pointwise update of the stream registry. -/
def updateSt (st : State) (id : String) (v : Option String) : State :=
  fun j => if j = id then v else st j

/-- One buffered write: `ContextLogger.debug` writes `LOG_SEP` first when
`hasStreamedLogs()` (the stream exists and has readable bytes), then the
serialized record. -/
def bufAppend (b ser : String) : String :=
  if b = "" then ser else b ++ SEP ++ ser

/-- Result of one public logger call: the next registry state, the records
the sink observes, and whether the call raised. -/
structure StepResult where
  st : State
  out : List Emitted
  raised : Bool

/-- `ContextLogger.debug`: with buffering disabled it defers to
`SimpleLogger.debug`; with buffering enabled it creates the context's
stream if absent and appends one serialized record, emitting nothing. -/
def stepDebug (cfg : Config) (st : State) (id t : String) (i : Info) : StepResult :=
  if cfg.enableLogStreams then
    ⟨updateSt st id (some (bufAppend ((st id).getD "") (serializeLog (formatLog t i)))), [], false⟩
  else
    ⟨st, simpleEmit cfg LogLevel.debug t i, false⟩

/-- The replay loop inside `ContextLogger.error`: each drained segment is
parsed by `JSON.parse` and re-emitted via `logger.info`. A segment that
fails to parse throws, aborting the loop: earlier segments were already
emitted, later ones are not. -/
def replay (cfg : Config) : List String → List Emitted × Bool
  | [] => ([], false)
  | s :: rest =>
    match parseLog s with
    | none => ([], true)
    | some l =>
      let r := replay cfg rest
      (emit cfg LogLevel.info (Payload.log l) ++ r.1, r.2)

/-- `ContextLogger.error`: `super.error(info)` first (whose argument may
raise before emission); then, when buffering is enabled and the context's
stream has content, drain it with `read()` — which empties the
PassThrough before any parsing happens — split on `LOG_SEP`, replay each
segment at info level, and delete the stream. When a segment fails to
parse, the exception propagates before `deleteLogStream` runs: the
stream's map entry survives, but drained empty. -/
def stepError (cfg : Config) (st : State) (id t : String) (ei : ErrorInfo) : StepResult :=
  match formatErrorLog t ei with
  | Except.error _ => ⟨st, [], true⟩
  | Except.ok el =>
    let out0 := emit cfg LogLevel.error (Payload.errlog el)
    let content := (st id).getD ""
    if cfg.enableLogStreams && !(content == "") then
      let r := replay cfg (jsSplit SEP content)
      if r.2 then ⟨updateSt st id (some ""), out0 ++ r.1, true⟩
      else ⟨updateSt st id none, out0 ++ r.1, false⟩
    else ⟨st, out0, false⟩

/-- A public call on the context logger, tagged with the execution
identifier that is current while it runs and, where relevant, the
timestamp the clock returns during the call. -/
inductive Op
  | debug (id t : String) (i : Info)
  | err (id t : String) (ei : ErrorInfo)
  | deleteLS (id : String)
  | createLS (id : String)

/-- The execution identifier current during a call. -/
def opId : Op → String
  | Op.debug id _ _ => id
  | Op.err id _ _ => id
  | Op.deleteLS id => id
  | Op.createLS id => id

/-- One call: `debug` and `error` as above; `deleteLogStream` removes the
context's stream; `createLogStream` creates an empty stream if absent. -/
def step (cfg : Config) (st : State) : Op → StepResult
  | Op.debug id t i => stepDebug cfg st id t i
  | Op.err id t ei => stepError cfg st id t ei
  | Op.deleteLS id => ⟨updateSt st id none, [], false⟩
  | Op.createLS id =>
    match st id with
    | none => ⟨updateSt st id (some ""), [], false⟩
    | some _ => ⟨st, [], false⟩

/-- Run a sequence of calls, concatenating the sink's observations in
order and recording whether any call raised. -/
def runTrace (cfg : Config) (st : State) : List Op → StepResult
  | [] => ⟨st, [], false⟩
  | op :: ops =>
    let r := step cfg st op
    let rr := runTrace cfg r.st ops
    ⟨rr.st, r.out ++ rr.out, r.raised || rr.raised⟩

/-- A sequence of buffered debug calls under one identifier, each with its
payload and call-time timestamp. -/
def debugOps (id : String) (ps : List (Info × String)) : List Op :=
  ps.map (fun p => Op.debug id p.2 p.1)

/-- The serialized record a debug call with payload `p` stores. -/
def serOf (p : Info × String) : String :=
  serializeLog (formatLog p.2 p.1)

/-- Character content of a buffer holding the given segments in order,
joined by the delimiter. -/
def interSep : List (List Char) → List Char
  | [] => []
  | [s] => s
  | s :: s2 :: rest => s ++ sepL ++ interSep (s2 :: rest)

theorem append_data (a b : String) : (a ++ b).data = a.data ++ b.data := by
  cases a
  cases b
  rfl

theorem mk_data (s : String) : String.mk s.data = s := rfl

theorem sepL_eq : sepL = ['<', 'L', 'O', 'G', 'E', 'N', 'D', '>'] := rfl

theorem sepL_len : sepL.length = 8 := rfl

theorem SEP_data : SEP.data = sepL := rfl

theorem isPrefixOf_iff_take {p l : List Char} :
    p.isPrefixOf l = true ↔ l.take p.length = p := by
  induction p generalizing l with
  | nil => simp [List.isPrefixOf]
  | cons a as ih =>
    cases l with
    | nil => simp [List.isPrefixOf]
    | cons b bs =>
      simp only [List.isPrefixOf, Bool.and_eq_true, beq_iff_eq, ih, List.length_cons,
        List.take_succ_cons, List.cons.injEq]
      constructor
      · rintro ⟨h1, h2⟩
        exact ⟨h1.symm, h2⟩
      · rintro ⟨h1, h2⟩
        exact ⟨h1.symm, h2⟩

theorem isPrefixOf_append_self (l t : List Char) : l.isPrefixOf (l ++ t) = true := by
  rw [isPrefixOf_iff_take]
  exact List.take_left l t

theorem skip_consume (x t acc : List Char) :
    splitAux sepL (x ++ t) x.length acc = splitAux sepL t 0 acc := by
  induction x generalizing acc with
  | nil => rfl
  | cons c x' ih =>
    show splitAux sepL (x' ++ t) x'.length acc = _
    exact ih acc

theorem splitAux_no_sep {r : List Char} (h : containsSeq sepL r = false) (acc : List Char) :
    splitAux sepL r 0 acc = [acc.reverse ++ r] := by
  induction r generalizing acc with
  | nil => simp [splitAux]
  | cons c r' ih =>
    simp only [containsSeq, Bool.or_eq_false_iff] at h
    simp [splitAux, h.1, ih h.2]

theorem noOverlapSep : ∀ k, k < 8 → 0 < k → sepL.take k ≠ sepL.drop (8 - k) := by decide

theorem not_prefix_mid {c : Char} {r' t : List Char}
    (h : containsSeq sepL (c :: r') = false) :
    sepL.isPrefixOf ((c :: r') ++ (sepL ++ t)) = false := by
  simp only [containsSeq, Bool.or_eq_false_iff] at h
  by_contra hb
  rw [Bool.not_eq_false, isPrefixOf_iff_take] at hb
  rcases le_or_lt sepL.length (c :: r').length with hle | hlt
  · rw [List.take_append_of_le_length hle] at hb
    have hpre : sepL.isPrefixOf (c :: r') = true := isPrefixOf_iff_take.mpr hb
    rw [h.1] at hpre
    exact Bool.false_ne_true hpre
  · rw [List.take_append_eq_append_take, List.take_of_length_le (Nat.le_of_lt hlt),
      List.take_append_of_le_length (Nat.sub_le _ _)] at hb
    have hdrop : sepL.drop (c :: r').length = sepL.take (sepL.length - (c :: r').length) := by
      conv_lhs => rw [← hb]
      rw [List.drop_left]
    have hlen : (c :: r').length ≥ 1 := Nat.succ_le_succ (Nat.zero_le _)
    rw [sepL_len] at hlt hb hdrop
    apply noOverlapSep (8 - (c :: r').length) (by omega) (by omega)
    rw [← hdrop]
    congr 1
    omega

theorem splitAux_cut {r : List Char} (h : containsSeq sepL r = false) (t acc : List Char) :
    splitAux sepL (r ++ (sepL ++ t)) 0 acc = (acc.reverse ++ r) :: splitAux sepL t 0 [] := by
  induction r generalizing acc with
  | nil =>
    rw [List.nil_append]
    have hp : sepL.isPrefixOf ('<' :: (['L', 'O', 'G', 'E', 'N', 'D', '>'] ++ t)) = true :=
      isPrefixOf_append_self sepL t
    have hskip : splitAux sepL (['L', 'O', 'G', 'E', 'N', 'D', '>'] ++ t) 7 [] =
        splitAux sepL t 0 [] :=
      skip_consume ['L', 'O', 'G', 'E', 'N', 'D', '>'] t []
    show splitAux sepL ('<' :: (['L', 'O', 'G', 'E', 'N', 'D', '>'] ++ t)) 0 acc = _
    rw [splitAux, if_pos hp]
    show acc.reverse :: splitAux sepL (['L', 'O', 'G', 'E', 'N', 'D', '>'] ++ t) 7 [] = _
    rw [hskip]
    simp
  | cons c r' ih =>
    have hnp := not_prefix_mid (t := t) h
    simp only [List.cons_append] at hnp
    simp only [containsSeq, Bool.or_eq_false_iff] at h
    show splitAux sepL (c :: (r' ++ (sepL ++ t))) 0 acc = _
    rw [splitAux, if_neg (by rw [hnp]; exact Bool.false_ne_true)]
    rw [ih h.2 (c :: acc)]
    simp

theorem splitAux_interSep : ∀ rs : List (List Char), rs ≠ [] →
    (∀ r ∈ rs, containsSeq sepL r = false) →
    splitAux sepL (interSep rs) 0 [] = rs
  | [], hne, _ => absurd rfl hne
  | [r], _, hall => by
    rw [interSep]
    have hr := splitAux_no_sep (hall r (by simp)) []
    simpa using hr
  | r :: r2 :: rest, _, hall => by
    rw [interSep, List.append_assoc]
    rw [splitAux_cut (hall r (by simp)) _ []]
    have hrec := splitAux_interSep (r2 :: rest) (by simp)
      (fun x hx => hall x (by simp [hx]))
    rw [hrec]
    simp

theorem unhex_hexDig : ∀ k, k < 16 → unhex (hexDig k) = some k := by decide

theorem unhex_zero : unhex '0' = some 0 := by decide

theorem escList_cons (c : Char) (cs : List Char) :
    escList (c :: cs) = escChar c ++ escList cs := by
  simp [escList]

theorem escChar_len_pos (c : Char) : 1 ≤ (escChar c).length := by
  rw [escChar]
  repeat' split
  all_goals simp

theorem parse_escList : ∀ (cs : List Char) (rest : List Char) (fuel : Nat),
    (escList cs ++ '\"' :: rest).length ≤ fuel →
    parseJStrAux fuel (escList cs ++ '\"' :: rest) = some (cs, rest)
  | [], rest, fuel, hf => by
    rw [escList] at hf ⊢
    simp only [List.map_nil, List.flatten_nil, List.nil_append] at hf ⊢
    cases fuel with
    | zero => simp at hf
    | succ f => simp [parseJStrAux]
  | c :: cs', rest, fuel, hf => by
    rw [escList_cons, List.append_assoc] at hf ⊢
    simp only [List.length_append] at hf
    by_cases h1 : c = '\"'
    · subst h1
      simp only [escChar, reduceIte] at hf ⊢
      cases fuel with
      | zero => simp at hf
      | succ f =>
        have ih := parse_escList cs' rest f (by simp at hf ⊢; omega)
        simp [parseJStrAux, unescSimple, ih, mapCons]
    by_cases h2 : c = '\\'
    · subst h2
      simp only [escChar, reduceIte] at hf ⊢
      cases fuel with
      | zero => simp at hf
      | succ f =>
        have ih := parse_escList cs' rest f (by simp at hf ⊢; omega)
        simp [parseJStrAux, unescSimple, ih, mapCons]
    by_cases h3 : c = '\n'
    · subst h3
      simp only [escChar, reduceIte] at hf ⊢
      cases fuel with
      | zero => simp at hf
      | succ f =>
        have ih := parse_escList cs' rest f (by simp at hf ⊢; omega)
        simp [parseJStrAux, unescSimple, ih, mapCons]
    by_cases h4 : c = '\t'
    · subst h4
      simp only [escChar, reduceIte] at hf ⊢
      cases fuel with
      | zero => simp at hf
      | succ f =>
        have ih := parse_escList cs' rest f (by simp at hf ⊢; omega)
        simp [parseJStrAux, unescSimple, ih, mapCons]
    by_cases h5 : c = '\r'
    · subst h5
      simp only [escChar, reduceIte] at hf ⊢
      cases fuel with
      | zero => simp at hf
      | succ f =>
        have ih := parse_escList cs' rest f (by simp at hf ⊢; omega)
        simp [parseJStrAux, unescSimple, ih, mapCons]
    by_cases h6 : c.toNat = 8
    · simp only [escChar, h1, h2, h3, h4, h5, h6, ite_true, ite_false, reduceIte] at hf ⊢
      cases fuel with
      | zero => simp at hf
      | succ f =>
        have ih := parse_escList cs' rest f (by simp at hf ⊢; omega)
        simp [parseJStrAux, unescSimple, ih, mapCons]
        rw [← h6, Char.ofNat_toNat]
    by_cases h7 : c.toNat = 12
    · simp only [escChar, h1, h2, h3, h4, h5, h6, h7, ite_true, ite_false, reduceIte] at hf ⊢
      cases fuel with
      | zero => simp at hf
      | succ f =>
        have ih := parse_escList cs' rest f (by simp at hf ⊢; omega)
        simp [parseJStrAux, unescSimple, ih, mapCons]
        rw [← h7, Char.ofNat_toNat]
    by_cases h8 : c.toNat < 32
    · have hhi : c.toNat / 16 < 16 := by omega
      have hlo : c.toNat % 16 < 16 := Nat.mod_lt _ (by omega)
      simp only [escChar, h1, h2, h3, h4, h5, h6, h7, h8, ite_true, ite_false, reduceIte] at hf ⊢
      cases fuel with
      | zero => simp at hf
      | succ f =>
        have ih := parse_escList cs' rest f (by simp at hf ⊢; omega)
        simp [parseJStrAux, parseHex4, unhex_zero, unhex_hexDig _ hhi, unhex_hexDig _ hlo,
          ih, mapCons]
        have hdm : 16 * (c.toNat / 16) + c.toNat % 16 = c.toNat := Nat.div_add_mod c.toNat 16
        rw [hdm, Char.ofNat_toNat]
    · simp only [escChar, h1, h2, h3, h4, h5, h6, h7, h8, ite_false, reduceIte] at hf ⊢
      cases fuel with
      | zero =>
        have := escChar_len_pos c
        simp at hf
      | succ f =>
        have ih := parse_escList cs' rest f (by simp at hf ⊢; omega)
        simp only [List.cons_append, List.nil_append]
        simp [parseJStrAux, h1, h2, ih, mapCons]

theorem toList_eq (s : String) : s.toList = s.data := rfl

theorem mkData (cs : List Char) : (String.mk cs).data = cs := rfl

theorem expects_append (pat rest : List Char) : expects pat (pat ++ rest) = some rest := by
  rw [expects, if_pos (isPrefixOf_append_self pat rest), List.drop_left]

theorem skelTime_split : skelTime = "\x7b\"time\":".toList ++ ['\"'] := by decide

theorem skelName_split : skelName = ",\"event\":\x7b\"name\":".toList ++ ['\"'] := by decide

theorem skelDetails_split : skelDetails = ",\"details\":".toList ++ ['\"'] := by decide

theorem skelDetails_cons : skelDetails = ',' :: "\"details\":\"".toList := rfl

theorem skelEnd_ne_det (X : List Char) : skelDetails ++ X ≠ skelEnd := by
  rw [skelDetails_cons]
  simp only [List.cons_append, ne_eq, skelEnd]
  intro h
  have hh := List.head_eq_of_cons_eq h
  exact absurd hh (by decide)

theorem serializeLog_toList (l : Log) :
    (serializeLog l).toList =
      skelTime ++ (escList l.time.toList ++ '\"' ::
        (skelName ++ (escList l.event.name.toList ++ '\"' ::
          (match l.event.details with
            | none => skelEnd
            | some d => skelDetails ++ (escList d.toList ++ '\"' :: skelEnd))))) := by
  rcases l with ⟨time, name, details⟩
  cases details with
  | none =>
    rw [skelTime_split, skelName_split]
    simp [serializeLog, jstr, toList_eq, append_data, mkData, skelEnd]
  | some d =>
    rw [skelTime_split, skelName_split, skelDetails_split]
    simp [serializeLog, jstr, toList_eq, append_data, mkData, skelEnd]

theorem mk_toList (s : String) : String.mk s.toList = s := rfl

theorem serializeLog_data (l : Log) :
    (serializeLog l).data =
      skelTime ++ (escList l.time.data ++ '\"' ::
        (skelName ++ (escList l.event.name.data ++ '\"' ::
          (match l.event.details with
            | none => skelEnd
            | some d => skelDetails ++ (escList d.data ++ '\"' :: skelEnd))))) :=
  serializeLog_toList l

theorem parse_serializeLog (l : Log) : parseLog (serializeLog l) = some l := by
  rcases l with ⟨time, name, details⟩
  cases details with
  | none =>
    simp [parseLog, serializeLog_data, expects_append, parse_escList, mk_data]
  | some d =>
    simp [parseLog, serializeLog_data, expects_append, parse_escList, mk_data,
      skelEnd_ne_det]

theorem skelTime_ne : skelTime ≠ [] := by decide

theorem interSep_cons_append (bd sd : List Char) (rest : List (List Char)) :
    interSep ((bd ++ sepL ++ sd) :: rest) = interSep (bd :: sd :: rest) := by
  cases rest with
  | nil => rw [interSep, interSep, interSep]
  | cons x xs =>
    rw [interSep, interSep, interSep]
    simp [List.append_assoc]

theorem empty_iff_data (s : String) : s = "" ↔ s.data = [] := by
  constructor
  · intro h
    rw [h]
  · intro h
    apply String.ext
    rw [h]

theorem serializeLog_data_ne (l : Log) : (serializeLog l).data ≠ [] := by
  rw [serializeLog_data]
  intro h
  rcases List.append_eq_nil.mp h with ⟨h1, _⟩
  exact skelTime_ne h1

theorem serializeLog_ne (l : Log) : serializeLog l ≠ "" := by
  intro h
  exact serializeLog_data_ne l ((empty_iff_data _).mp h)

theorem bufAppend_data {b : String} (s : String) (hb : b ≠ "") :
    (bufAppend b s).data = b.data ++ sepL ++ s.data := by
  rw [bufAppend, if_neg hb, append_data, append_data, SEP_data]

theorem bufAppend_ne {b : String} (s : String) (hb : b ≠ "") : bufAppend b s ≠ "" := by
  intro h
  rw [empty_iff_data, bufAppend_data s hb] at h
  rcases List.append_eq_nil.mp h with ⟨h1, _⟩
  rcases List.append_eq_nil.mp h1 with ⟨h2, _⟩
  exact (empty_iff_data b).not.mp hb h2

theorem foldl_bufAppend_data : ∀ (l : List String) (b : String), b ≠ "" →
    (List.foldl bufAppend b l).data = interSep (b.data :: l.map String.data)
  | [], b, _ => by
    rw [List.foldl_nil, List.map_nil, interSep]
  | s :: l', b, hb => by
    rw [List.foldl_cons, List.map_cons,
      foldl_bufAppend_data l' (bufAppend b s) (bufAppend_ne s hb),
      bufAppend_data s hb, interSep_cons_append]

theorem foldl_bufAppend_ne : ∀ (l : List String) (b : String), b ≠ "" →
    List.foldl bufAppend b l ≠ ""
  | [], _, hb => hb
  | s :: l', b, hb => foldl_bufAppend_ne l' (bufAppend b s) (bufAppend_ne s hb)

theorem num_le_three (l : LogLevel) : l.num ≤ 3 := by
  cases l <;> simp [LogLevel.num]

theorem shouldEmit_error {cfg : Config} (he : cfg.isEnabled = true) :
    shouldEmit cfg LogLevel.error = true := by
  rw [shouldEmit, he]
  simp only [Bool.true_and, decide_eq_true_eq]
  exact num_le_three cfg.level

theorem shouldEmit_info {cfg : Config} (he : cfg.isEnabled = true)
    (hl : cfg.level.num ≤ 1) : shouldEmit cfg LogLevel.info = true := by
  rw [shouldEmit, he]
  simpa [LogLevel.num] using hl

theorem replay_serialized (cfg : Config) (hgate : shouldEmit cfg LogLevel.info = true) :
    ∀ ls : List Log, replay cfg (ls.map serializeLog) =
      (ls.map (fun l => Emitted.mk LogLevel.info (mixinOf cfg) (Payload.log l)), false)
  | [] => rfl
  | l :: ls' => by
    rw [List.map_cons, replay, parse_serializeLog, replay_serialized cfg hgate ls']
    simp [emit, hgate]

theorem runTrace_append (cfg : Config) (l1 l2 : List Op) : ∀ st : State,
    runTrace cfg st (l1 ++ l2) =
      ⟨(runTrace cfg (runTrace cfg st l1).st l2).st,
       (runTrace cfg st l1).out ++ (runTrace cfg (runTrace cfg st l1).st l2).out,
       ((runTrace cfg st l1).raised || (runTrace cfg (runTrace cfg st l1).st l2).raised)⟩ := by
  induction l1 with
  | nil => intro st; rfl
  | cons op l1' ih =>
    intro st
    rw [List.cons_append, runTrace, runTrace, ih]
    simp [List.append_assoc, Bool.or_assoc]

theorem run_debugs (cfg : Config) (hs : cfg.enableLogStreams = true) (id : String) :
    ∀ (ps : List (Info × String)) (st : State) (b : String), st id = some b →
      (runTrace cfg st (debugOps id ps)).out = [] ∧
      (runTrace cfg st (debugOps id ps)).raised = false ∧
      (runTrace cfg st (debugOps id ps)).st id =
        some (List.foldl bufAppend b (ps.map serOf)) ∧
      ∀ j : String, j ≠ id → (runTrace cfg st (debugOps id ps)).st j = st j
  | [], st, b, hb => by
    simp [debugOps, runTrace, hb]
  | p :: ps', st, b, hb => by
    have hstep : step cfg st (Op.debug id p.2 p.1) =
        ⟨updateSt st id (some (bufAppend b (serOf p))), [], false⟩ := by
      rw [step, stepDebug, if_pos hs, hb]
      rfl
    have hup : updateSt st id (some (bufAppend b (serOf p))) id =
        some (bufAppend b (serOf p)) := by
      simp [updateSt]
    have ih := run_debugs cfg hs id ps' (updateSt st id (some (bufAppend b (serOf p))))
      (bufAppend b (serOf p)) hup
    rw [debugOps, List.map_cons]
    rw [show (Op.debug id p.2 p.1 :: List.map (fun p => Op.debug id p.2 p.1) ps') =
      Op.debug id p.2 p.1 :: debugOps id ps' from rfl]
    rw [runTrace, hstep]
    refine ⟨by simp [ih.1], by simp [ih.2.1], ?_, ?_⟩
    · rw [List.map_cons, List.foldl_cons]
      exact ih.2.2.1
    · intro j hj
      rw [ih.2.2.2 j hj]
      simp [updateSt, hj]

theorem interSep_ne_nil {x : List Char} (hx : x ≠ []) (xs : List (List Char)) :
    interSep (x :: xs) ≠ [] := by
  cases xs with
  | nil =>
    rw [interSep]
    exact hx
  | cons y ys =>
    rw [interSep]
    intro h
    rcases List.append_eq_nil.mp h with ⟨h1, _⟩
    rcases List.append_eq_nil.mp h1 with ⟨h2, _⟩
    exact hx h2

theorem jsSplit_serialized (ls : List Log) (hne : ls ≠ [])
    (hnosep : ∀ l ∈ ls, containsSeq sepL (serializeLog l).data = false)
    (c : String) (hc : c.data = interSep (ls.map (fun l => (serializeLog l).data))) :
    jsSplit SEP c = ls.map serializeLog := by
  rw [jsSplit]
  rw [show SEP.toList = sepL from rfl, show c.toList = c.data from rfl, hc]
  rw [splitAux_interSep (ls.map (fun l => (serializeLog l).data))
    (by simpa using hne)
    (by
      intro r hr
      rcases List.mem_map.mp hr with ⟨l, hl, hrl⟩
      rw [← hrl]
      exact hnosep l hl)]
  simp [List.map_map, Function.comp, mk_data]

theorem stepError_flush (cfg : Config) (hs : cfg.enableLogStreams = true)
    (he : cfg.isEnabled = true) (hl : cfg.level.num ≤ 1)
    (st : State) (id t : String) (ei : ErrorInfo) (el : ErrorLog)
    (hok : formatErrorLog t ei = Except.ok el)
    (ls : List Log) (hne : ls ≠ [])
    (hnosep : ∀ l ∈ ls, containsSeq sepL (serializeLog l).data = false)
    (c : String) (hb : st id = some c)
    (hc : c.data = interSep (ls.map (fun l => (serializeLog l).data))) :
    (stepError cfg st id t ei).out =
      Emitted.mk LogLevel.error (mixinOf cfg) (Payload.errlog el) ::
        ls.map (fun l => Emitted.mk LogLevel.info (mixinOf cfg) (Payload.log l)) ∧
    (stepError cfg st id t ei).raised = false ∧
    (stepError cfg st id t ei).st id = none ∧
    ∀ j : String, j ≠ id → (stepError cfg st id t ei).st j = st j := by
  have hcne : c ≠ "" := by
    intro h
    have hd := (empty_iff_data c).mp h
    rw [hc] at hd
    rcases ls with _ | ⟨l0, ls0⟩
    · exact hne rfl
    · rw [List.map_cons] at hd
      exact interSep_ne_nil (serializeLog_data_ne l0) _ hd
  have hbeq : (c == "") = false := by
    simp [hcne]
  have hsplit : jsSplit SEP c = ls.map serializeLog := jsSplit_serialized ls hne hnosep c hc
  have hreplay := replay_serialized cfg (shouldEmit_info he hl) ls
  have hgE := shouldEmit_error he
  simp only [stepError, hok, hb, Option.getD_some, hs, hbeq, Bool.not_false, Bool.true_and,
    if_true, hsplit, hreplay, emit, hgE]
  refine ⟨rfl, rfl, by simp [updateSt], ?_⟩
  intro j hj
  simp [updateSt, hj]

theorem runTrace_single (cfg : Config) (st : State) (op : Op) :
    runTrace cfg st [op] = step cfg st op := by
  simp [runTrace]

theorem stepError_nobuf (cfg : Config) (he : cfg.isEnabled = true)
    (st : State) (id t : String) (ei : ErrorInfo) (el : ErrorLog)
    (hok : formatErrorLog t ei = Except.ok el) (hb : st id = none) :
    stepError cfg st id t ei =
      ⟨st, [⟨LogLevel.error, mixinOf cfg, Payload.errlog el⟩], false⟩ := by
  simp only [stepError, hok, hb, Option.getD_none]
  simp [emit, shouldEmit_error he]

theorem run_debugs_empty (cfg : Config) (hs : cfg.enableLogStreams = true)
    (id : String) (p : Info × String) (ps' : List (Info × String)) :
    (runTrace cfg emptyState (debugOps id (p :: ps'))).out = [] ∧
    (runTrace cfg emptyState (debugOps id (p :: ps'))).raised = false ∧
    (runTrace cfg emptyState (debugOps id (p :: ps'))).st id =
      some (List.foldl bufAppend (serOf p) (ps'.map serOf)) ∧
    ∀ j : String, j ≠ id → (runTrace cfg emptyState (debugOps id (p :: ps'))).st j = none := by
  have hstep : step cfg emptyState (Op.debug id p.2 p.1) =
      ⟨updateSt emptyState id (some (serOf p)), [], false⟩ := by
    rw [step, stepDebug, if_pos hs]
    simp [emptyState, bufAppend, serOf]
  have hup : updateSt emptyState id (some (serOf p)) id = some (serOf p) := by
    simp [updateSt]
  have ih := run_debugs cfg hs id ps' (updateSt emptyState id (some (serOf p))) (serOf p) hup
  rw [show debugOps id (p :: ps') = Op.debug id p.2 p.1 :: debugOps id ps' from rfl]
  rw [runTrace, hstep]
  refine ⟨by simp [ih.1], by simp [ih.2.1], ih.2.2.1, ?_⟩
  intro j hj
  rw [ih.2.2.2 j hj]
  simp [updateSt, hj, emptyState]

theorem buffer_data (p : Info × String) (ps' : List (Info × String)) :
    (List.foldl bufAppend (serOf p) (ps'.map serOf)).data =
      interSep (((p :: ps').map (fun q => formatLog q.2 q.1)).map
        (fun l => (serializeLog l).data)) := by
  rw [foldl_bufAppend_data (ps'.map serOf) (serOf p) (serializeLog_ne _)]
  simp only [List.map_cons, List.map_map]
  rfl

theorem run_debugs_error (cfg : Config) (hs : cfg.enableLogStreams = true)
    (he : cfg.isEnabled = true) (hl : cfg.level.num ≤ 1)
    (id t : String) (ei : ErrorInfo) (el : ErrorLog)
    (hok : formatErrorLog t ei = Except.ok el)
    (ps : List (Info × String))
    (hnosep : ∀ p ∈ ps, containsSeq sepL (serOf p).data = false) :
    (runTrace cfg emptyState (debugOps id ps ++ [Op.err id t ei])).out =
      Emitted.mk LogLevel.error (mixinOf cfg) (Payload.errlog el) ::
        ps.map (fun p =>
          Emitted.mk LogLevel.info (mixinOf cfg) (Payload.log (formatLog p.2 p.1))) ∧
    (runTrace cfg emptyState (debugOps id ps ++ [Op.err id t ei])).raised = false ∧
    (runTrace cfg emptyState (debugOps id ps ++ [Op.err id t ei])).st id = none := by
  rw [runTrace_append, runTrace_single]
  cases ps with
  | nil =>
    rw [show debugOps id [] = [] from rfl]
    rw [show runTrace cfg emptyState [] = ⟨emptyState, [], false⟩ from rfl]
    rw [show step cfg emptyState (Op.err id t ei) = stepError cfg emptyState id t ei from rfl]
    rw [stepError_nobuf cfg he emptyState id t ei el hok rfl]
    simp [emptyState]
  | cons p ps' =>
    obtain ⟨ho, hr, hbuf, _⟩ := run_debugs_empty cfg hs id p ps'
    generalize hg : runTrace cfg emptyState (debugOps id (p :: ps')) = R at ho hr hbuf ⊢
    obtain ⟨Rst, Rout, Rraised⟩ := R
    simp only at ho hr hbuf
    subst ho
    subst hr
    have hns : ∀ l ∈ (p :: ps').map (fun q => formatLog q.2 q.1),
        containsSeq sepL (serializeLog l).data = false := by
      intro l hlm
      rcases List.mem_map.mp hlm with ⟨q, hq, hql⟩
      rw [← hql]
      exact hnosep q hq
    have part1 := stepError_flush cfg hs he hl Rst id t ei el hok
    have part2 := part1 ((p :: ps').map (fun q => formatLog q.2 q.1))
    have part3 := part2 (by simp) hns
    have part4 := part3 (List.foldl bufAppend (serOf p) (ps'.map serOf)) hbuf
    have hflush := part4 (buffer_data p ps')
    simp only [step]
    refine ⟨?_, ?_, ?_⟩
    · rw [hflush.1]
      simp only [List.map_cons, List.map_map, List.nil_append]
      rfl
    · simp [hflush.2.1]
    · exact hflush.2.2.1

theorem stepError_st_cases (cfg : Config) (st : State) (id t : String) (ei : ErrorInfo) :
    (stepError cfg st id t ei).st = st ∨
    (stepError cfg st id t ei).st = updateSt st id (some "") ∨
    (stepError cfg st id t ei).st = updateSt st id none := by
  cases hfe : formatErrorLog t ei with
  | error u =>
    simp only [stepError, hfe]
    exact Or.inl trivial
  | ok el =>
    simp only [stepError, hfe]
    split
    · split
      · exact Or.inr (Or.inl rfl)
      · exact Or.inr (Or.inr rfl)
    · exact Or.inl rfl

theorem step_frame (cfg : Config) (st : State) (op : Op) (j : String) (hj : j ≠ opId op) :
    (step cfg st op).st j = st j := by
  cases op with
  | debug id t i =>
    simp only [opId] at hj
    rw [step, stepDebug]
    split
    · simp [updateSt, hj]
    · rfl
  | err id t ei =>
    simp only [opId] at hj
    rw [step]
    rcases stepError_st_cases cfg st id t ei with h | h | h
    · rw [h]
    · rw [h]
      simp [updateSt, hj]
    · rw [h]
      simp [updateSt, hj]
  | deleteLS id =>
    simp only [opId] at hj
    rw [step]
    simp [updateSt, hj]
  | createLS id =>
    simp only [opId] at hj
    rw [step]
    split
    · simp [updateSt, hj]
    · rfl

theorem step_local (cfg : Config) (st st' : State) (op : Op)
    (h : st (opId op) = st' (opId op)) :
    (step cfg st op).st (opId op) = (step cfg st' op).st (opId op) ∧
    (step cfg st op).out = (step cfg st' op).out ∧
    (step cfg st op).raised = (step cfg st' op).raised := by
  cases op with
  | debug id t i =>
    simp only [opId] at h ⊢
    rw [step, step, stepDebug, stepDebug, h]
    split
    · simp [updateSt]
    · simp [h]
  | err id t ei =>
    simp only [opId] at h ⊢
    rw [step, step]
    simp only [stepError, h]
    cases hfe : formatErrorLog t ei with
    | error u => simp [hfe, h]
    | ok el =>
      simp only [hfe]
      by_cases hcnd : (cfg.enableLogStreams && !((st' id).getD "" == "")) = true
      · rw [if_pos hcnd, if_pos hcnd]
        by_cases hr2 : (replay cfg (jsSplit SEP ((st' id).getD ""))).2 = true
        · rw [if_pos hr2, if_pos hr2]
          simp [updateSt]
        · rw [if_neg hr2, if_neg hr2]
          simp [updateSt]
      · rw [if_neg hcnd, if_neg hcnd]
        simp [h]
  | deleteLS id =>
    simp only [opId] at h ⊢
    rw [step, step]
    simp [updateSt]
  | createLS id =>
    simp only [opId] at h ⊢
    rw [step, step, h]
    split
    · simp [updateSt]
    · simp [h]

theorem runTrace_proj (cfg : Config) (B : String) :
    ∀ (ops : List Op) (st1 st2 : State), st1 B = st2 B →
      (runTrace cfg st1 ops).st B =
        (runTrace cfg st2 (ops.filter (fun o => opId o == B))).st B
  | [], st1, st2, h => h
  | op :: ops', st1, st2, h => by
    by_cases hop : opId op = B
    · have hkeep : (opId op == B) = true := beq_iff_eq.mpr hop
      simp only [List.filter_cons, hkeep, if_true]
      rw [runTrace, runTrace]
      apply runTrace_proj cfg B ops'
      have hloc := (step_local cfg st1 st2 op (by rw [hop]; exact h)).1
      rw [hop] at hloc
      exact hloc
    · have hdrop : (opId op == B) = false := by
        simp [hop]
      simp only [List.filter_cons, hdrop, Bool.false_eq_true, if_false]
      rw [runTrace]
      apply runTrace_proj cfg B ops'
      rw [step_frame cfg st1 op B (Ne.symm hop)]
      exact h

theorem stepError_out_congr (cfg : Config) (st1 st2 : State) (id t : String)
    (ei : ErrorInfo) (h : st1 id = st2 id) :
    (stepError cfg st1 id t ei).out = (stepError cfg st2 id t ei).out :=
  (step_local cfg st1 st2 (Op.err id t ei) h).2.1

theorem debugs_silent (cfg : Config) (hs : cfg.enableLogStreams = true) (id : String) :
    ∀ (ps : List (Info × String)) (st : State),
      (runTrace cfg st (debugOps id ps)).out = [] ∧
      (runTrace cfg st (debugOps id ps)).raised = false
  | [], st => by simp [debugOps, runTrace]
  | p :: ps', st => by
    rw [show debugOps id (p :: ps') = Op.debug id p.2 p.1 :: debugOps id ps' from rfl,
      runTrace]
    have ih := debugs_silent cfg hs id ps'
      (step cfg st (Op.debug id p.2 p.1)).st
    rw [show step cfg st (Op.debug id p.2 p.1) = stepDebug cfg st id p.2 p.1 from rfl] at ih ⊢
    rw [stepDebug, if_pos hs] at ih ⊢
    simp [ih.1, ih.2]

theorem replay_info_level (cfg : Config) :
    ∀ (segs : List String), ∀ r ∈ (replay cfg segs).1, r.level = LogLevel.info
  | [], r, hr => absurd hr (by simp [replay])
  | s :: rest, r, hr => by
    rw [replay] at hr
    cases hp : parseLog s with
    | none =>
      rw [hp] at hr
      exact absurd hr (by simp)
    | some l =>
      rw [hp] at hr
      simp only [List.mem_append] at hr
      rcases hr with hr | hr
      · rw [emit] at hr
        split at hr
        · simp at hr
          rw [hr]
        · exact absurd hr (by simp)
      · exact replay_info_level cfg rest r hr

theorem stepError_corrupt (cfg : Config) (hs : cfg.enableLogStreams = true)
    (st : State) (id t : String) (ei : ErrorInfo) (el : ErrorLog)
    (hok : formatErrorLog t ei = Except.ok el)
    (c : String) (hb : st id = some c) (hcne : c ≠ "")
    (hraise : (replay cfg (jsSplit SEP c)).2 = true) :
    (stepError cfg st id t ei).raised = true ∧
    (stepError cfg st id t ei).st id = some "" ∧
    (stepError cfg st id t ei).out =
      emit cfg LogLevel.error (Payload.errlog el) ++ (replay cfg (jsSplit SEP c)).1 := by
  have hbeq : (c == "") = false := by simp [hcne]
  refine ⟨?_, ?_, ?_⟩ <;>
    simp [stepError, hok, hb, hs, hbeq, hraise, updateSt]

/-- C5 counterexample: two error calls that emit zero error-level records,
refuting "every error call emits exactly one error-level record ...
unconditionally". First input: an enabled logger, buffering on, a nonempty
buffer, and an error whose `toJSON` capability throws — the argument of
`logger.error` raises before anything is emitted. Second input: a disabled
logger (`isEnabled: false`) — pino drops the error record at the gate. -/
theorem c5_suppressed_counterexample :
    (stepError ⟨LogLevel.debug, true, none, true⟩
      (updateSt emptyState "B" (some "buffered")) "B" "u"
      ⟨"boom", none, ⟨"TypeError", "bad", some TJResult.throws⟩⟩).out.countP
        (fun r => r.level == LogLevel.error) = 0 ∧
    (stepError ⟨LogLevel.debug, false, none, true⟩ emptyState "B" "u"
      ⟨"boom", none, ⟨"TypeError", "bad", none⟩⟩).out.countP
        (fun r => r.level == LogLevel.error) = 0 := by
  decide

/-- C5 (amended): every error call on an enabled logger whose error value
serializes emits exactly one error-level record, emitted first, regardless
of buffering mode (any `enableLogStreams`) and of the current buffer's
contents (any registry state, including buffers whose flush then raises).
Replayed records are emitted at info level, so the error record is the
single error-level record, and it heads the output, before any drain is
attempted. Both hypotheses are forced: a throwing `toJSON` or a disabled
logger emits zero error-level records. -/
theorem c5_error_always_first (cfg : Config) (st : State) (id t : String)
    (ei : ErrorInfo) (el : ErrorLog) (he : cfg.isEnabled = true)
    (hok : formatErrorLog t ei = Except.ok el) :
    (stepError cfg st id t ei).out.countP (fun r => r.level == LogLevel.error) = 1 ∧
    (stepError cfg st id t ei).out.head? =
      some ⟨LogLevel.error, mixinOf cfg, Payload.errlog el⟩ := by
  have hout0 : emit cfg LogLevel.error (Payload.errlog el) =
      [⟨LogLevel.error, mixinOf cfg, Payload.errlog el⟩] := by
    rw [emit, if_pos (shouldEmit_error he)]
  have hrep : ∀ segs : List String,
      (replay cfg segs).1.countP (fun r => r.level == LogLevel.error) = 0 := by
    intro segs
    rw [List.countP_eq_zero]
    intro r hr
    have hi := replay_info_level cfg segs r hr
    simp [hi]
  simp only [stepError, hok]
  split
  · split
    · simp [hout0, List.countP_append, hrep]
    · simp [hout0, List.countP_append, hrep]
  · simp [hout0]

/-- Witness for C5 at a concrete input: an enabled logger with buffering on
and a buffer holding an unparsable entry still emits exactly one
error-level record, and first. -/
theorem c5_error_always_first_witness :
    ((⟨LogLevel.debug, true, none, true⟩ : Config).isEnabled = true) ∧
    formatErrorLog "t" ⟨"e", none, ⟨"Error", "Oops", none⟩⟩ =
      Except.ok ⟨"t", ⟨"e", none, [("type", "Error"), ("message", "Oops")]⟩⟩ ∧
    ((stepError ⟨LogLevel.debug, true, none, true⟩
        (updateSt emptyState "A" (some "junk")) "A" "t"
        ⟨"e", none, ⟨"Error", "Oops", none⟩⟩).out.countP
          (fun r => r.level == LogLevel.error) = 1 ∧
      (stepError ⟨LogLevel.debug, true, none, true⟩
        (updateSt emptyState "A" (some "junk")) "A" "t"
        ⟨"e", none, ⟨"Error", "Oops", none⟩⟩).out.head? =
        some ⟨LogLevel.error, [],
          Payload.errlog ⟨"t", ⟨"e", none, [("type", "Error"), ("message", "Oops")]⟩⟩⟩) :=
  ⟨rfl, rfl,
    c5_error_always_first ⟨LogLevel.debug, true, none, true⟩
      (updateSt emptyState "A" (some "junk")) "A" "t"
      ⟨"e", none, ⟨"Error", "Oops", none⟩⟩
      ⟨"t", ⟨"e", none, [("type", "Error"), ("message", "Oops")]⟩⟩ rfl rfl⟩

/-- C6: suppression — any sequence of buffered debug calls under one
identifier followed only by an explicit `deleteLogStream` (and no error
call) sends zero records to the sink, and the buffer is gone afterwards. -/
theorem c6_suppression (cfg : Config) (id : String) (ps : List (Info × String))
    (hs : cfg.enableLogStreams = true) :
    (runTrace cfg emptyState (debugOps id ps ++ [Op.deleteLS id])).out = [] ∧
    (runTrace cfg emptyState (debugOps id ps ++ [Op.deleteLS id])).raised = false ∧
    (runTrace cfg emptyState (debugOps id ps ++ [Op.deleteLS id])).st id = none := by
  rw [runTrace_append, runTrace_single]
  have hsil := debugs_silent cfg hs id ps emptyState
  refine ⟨?_, ?_, ?_⟩
  · rw [hsil.1]
    simp [step]
  · rw [hsil.2]
    simp [step]
  · simp [step, updateSt]

/-- Witness for C6 at a concrete input: two buffered debug calls then a
delete emit nothing and leave no buffer. -/
theorem c6_suppression_witness :
    ((⟨LogLevel.debug, true, none, true⟩ : Config).enableLogStreams = true) ∧
    ((runTrace ⟨LogLevel.debug, true, none, true⟩ emptyState
        (debugOps "A" [(⟨"x", none⟩, "t1"), (⟨"y", none⟩, "t2")] ++ [Op.deleteLS "A"])).out = [] ∧
      (runTrace ⟨LogLevel.debug, true, none, true⟩ emptyState
        (debugOps "A" [(⟨"x", none⟩, "t1"), (⟨"y", none⟩, "t2")] ++ [Op.deleteLS "A"])).st "A" = none) :=
  ⟨rfl,
    (c6_suppression ⟨LogLevel.debug, true, none, true⟩ "A"
      [(⟨"x", none⟩, "t1"), (⟨"y", none⟩, "t2")] rfl).1,
    (c6_suppression ⟨LogLevel.debug, true, none, true⟩ "A"
      [(⟨"x", none⟩, "t1"), (⟨"y", none⟩, "t2")] rfl).2.2⟩

/-- C7: isolation — for any interleaving of calls across identifiers, the
buffer observed for identifier B, and hence everything a flush performed
under B emits, is unchanged when all operations of other identifiers are
removed from the trace: records logged while another identifier was
current are never replayed by B's flush, and vice versa (B arbitrary). -/
theorem c7_isolation (cfg : Config) (ops : List Op) (B t : String) (ei : ErrorInfo) :
    (runTrace cfg emptyState ops).st B =
      (runTrace cfg emptyState (ops.filter (fun o => opId o == B))).st B ∧
    (stepError cfg (runTrace cfg emptyState ops).st B t ei).out =
      (stepError cfg (runTrace cfg emptyState
        (ops.filter (fun o => opId o == B))).st B t ei).out := by
  have hproj := runTrace_proj cfg B ops emptyState emptyState rfl
  exact ⟨hproj, stepError_out_congr cfg _ _ B t ei hproj⟩

/-- C8: every record emitted by a `SimpleLogger` call carries, merged at
call time: the attachment map obtained by invoking the configured
zero-argument producer (or the empty map when none is configured, exactly
pino's `mixin`), and the caller-supplied event payload together with the
call-time UTC timestamp. -/
theorem c8_format_merges (cfg : Config) (lvl : LogLevel) (t : String) (i : Info)
    (r : Emitted) (hr : r ∈ simpleEmit cfg lvl t i) :
    r.attachments = (match cfg.logAttachments with
      | none => []
      | some f => f ()) ∧
    r.payload = Payload.log ⟨t, i⟩ := by
  rw [simpleEmit, emit] at hr
  split at hr
  · simp only [List.mem_singleton] at hr
    rw [hr]
    exact ⟨rfl, rfl⟩
  · exact absurd hr (by simp)

/-- Witness for C8 at a concrete input: with a configured producer, the
emitted record carries the produced attachments, the payload and the
timestamp. -/
theorem c8_format_merges_witness :
    ((⟨LogLevel.info, [("executionId", "42")], Payload.log ⟨"T", ⟨"n", none⟩⟩⟩ : Emitted) ∈
      simpleEmit ⟨LogLevel.info, true, some (fun _ => [("executionId", "42")]), true⟩
        LogLevel.info "T" ⟨"n", none⟩) ∧
    ((⟨LogLevel.info, [("executionId", "42")], Payload.log ⟨"T", ⟨"n", none⟩⟩⟩ : Emitted).attachments
        = [("executionId", "42")] ∧
      (⟨LogLevel.info, [("executionId", "42")], Payload.log ⟨"T", ⟨"n", none⟩⟩⟩ : Emitted).payload
        = Payload.log ⟨"T", ⟨"n", none⟩⟩) :=
  ⟨by decide,
    c8_format_merges ⟨LogLevel.info, true, some (fun _ => [("executionId", "42")]), true⟩
      LogLevel.info "T" ⟨"n", none⟩
      ⟨LogLevel.info, [("executionId", "42")], Payload.log ⟨"T", ⟨"n", none⟩⟩⟩ (by decide)⟩

/-- C10: with buffering enabled, a debug call never consults the level
gate: for every configuration of `isEnabled` (including false) and of the
threshold, it emits nothing, raises nothing, and appends exactly one
serialized record to the current identifier's buffer, creating the buffer
when absent and leaving every other identifier's buffer untouched. -/
theorem c10_debug_bypasses_gate (cfg : Config) (st : State) (id t : String)
    (i : Info) (hs : cfg.enableLogStreams = true) :
    (stepDebug cfg st id t i).out = [] ∧
    (stepDebug cfg st id t i).raised = false ∧
    (stepDebug cfg st id t i).st id =
      some (bufAppend ((st id).getD "") (serializeLog (formatLog t i))) ∧
    ∀ j : String, j ≠ id → (stepDebug cfg st id t i).st j = st j := by
  rw [stepDebug, if_pos hs]
  refine ⟨rfl, rfl, by simp [updateSt], ?_⟩
  intro j hj
  simp [updateSt, hj]

/-- Witness for C10 at a concrete input: even a disabled logger with a
warn threshold buffers the debug record and emits nothing. -/
theorem c10_debug_bypasses_gate_witness :
    ((⟨LogLevel.warn, false, none, true⟩ : Config).enableLogStreams = true) ∧
    ((stepDebug ⟨LogLevel.warn, false, none, true⟩ emptyState "A" "t" ⟨"x", none⟩).out = [] ∧
      (stepDebug ⟨LogLevel.warn, false, none, true⟩ emptyState "A" "t" ⟨"x", none⟩).st "A" =
        some (bufAppend ((emptyState "A").getD "") (serializeLog (formatLog "t" ⟨"x", none⟩)))) :=
  ⟨rfl,
    (c10_debug_bypasses_gate ⟨LogLevel.warn, false, none, true⟩ emptyState "A" "t"
      ⟨"x", none⟩ rfl).1,
    (c10_debug_bypasses_gate ⟨LogLevel.warn, false, none, true⟩ emptyState "A" "t"
      ⟨"x", none⟩ rfl).2.2.1⟩

/-- C1 counterexample: a logger with buffering enabled but threshold
`error` violates the claim as stated — after one buffered debug call and
an error call, the sink observes only the error record (one record, no
info-level re-emission of the debug payload), because `logger.info`
replays pass through pino's level gate; the buffer is nonetheless drained
and deleted. -/
theorem c1_gate_counterexample :
    (runTrace ⟨LogLevel.error, true, none, true⟩ emptyState
      [Op.debug "A" "t1" ⟨"x", none⟩,
       Op.err "A" "t2" ⟨"e", none, ⟨"Error", "Oops", none⟩⟩]).out =
      [⟨LogLevel.error, [],
        Payload.errlog ⟨"t2", ⟨"e", none, [("type", "Error"), ("message", "Oops")]⟩⟩⟩] ∧
    (runTrace ⟨LogLevel.error, true, none, true⟩ emptyState
      [Op.debug "A" "t1" ⟨"x", none⟩,
       Op.err "A" "t2" ⟨"e", none, ⟨"Error", "Oops", none⟩⟩]).out.length = 1 := by
  decide

/-- C1 (amended): for a logger with buffering enabled that is enabled and
whose threshold is at most info, for any buffered debug calls d1…dn under
one identifier whose serialized records do not contain the delimiter,
followed by an error call under that identifier whose error value
serializes, the sink observes exactly the error record first, then d1…dn
re-emitted at info level in original order; nothing raises; and no buffer
exists for the identifier afterwards. -/
theorem c1_flush_ordering (cfg : Config) (id t : String) (ei : ErrorInfo)
    (el : ErrorLog) (ps : List (Info × String))
    (hs : cfg.enableLogStreams = true) (he : cfg.isEnabled = true)
    (hl : cfg.level.num ≤ 1)
    (hok : formatErrorLog t ei = Except.ok el)
    (hnosep : ∀ p ∈ ps, containsSeq sepL (serOf p).data = false) :
    (runTrace cfg emptyState (debugOps id ps ++ [Op.err id t ei])).out =
      Emitted.mk LogLevel.error (mixinOf cfg) (Payload.errlog el) ::
        ps.map (fun p =>
          Emitted.mk LogLevel.info (mixinOf cfg) (Payload.log (formatLog p.2 p.1))) ∧
    (runTrace cfg emptyState (debugOps id ps ++ [Op.err id t ei])).raised = false ∧
    (runTrace cfg emptyState (debugOps id ps ++ [Op.err id t ei])).st id = none :=
  run_debugs_error cfg hs he hl id t ei el hok ps hnosep

/-- Witness for the amended C1 at a concrete input: two buffered debug
calls then an error, at threshold debug, yield error then both records at
info level, and the buffer is gone. -/
theorem c1_flush_ordering_witness :
    (∀ p ∈ ([(⟨"x", none⟩, "t1"), (⟨"y", none⟩, "t2")] : List (Info × String)),
      containsSeq sepL (serOf p).data = false) ∧
    ((runTrace ⟨LogLevel.debug, true, none, true⟩ emptyState
        (debugOps "A" [(⟨"x", none⟩, "t1"), (⟨"y", none⟩, "t2")] ++
          [Op.err "A" "t3" ⟨"e", none, ⟨"Error", "Oops", none⟩⟩])).out =
      [⟨LogLevel.error, [],
          Payload.errlog ⟨"t3", ⟨"e", none, [("type", "Error"), ("message", "Oops")]⟩⟩⟩,
        ⟨LogLevel.info, [], Payload.log ⟨"t1", ⟨"x", none⟩⟩⟩,
        ⟨LogLevel.info, [], Payload.log ⟨"t2", ⟨"y", none⟩⟩⟩] ∧
      (runTrace ⟨LogLevel.debug, true, none, true⟩ emptyState
        (debugOps "A" [(⟨"x", none⟩, "t1"), (⟨"y", none⟩, "t2")] ++
          [Op.err "A" "t3" ⟨"e", none, ⟨"Error", "Oops", none⟩⟩])).st "A" = none) :=
  ⟨by decide,
    (c1_flush_ordering ⟨LogLevel.debug, true, none, true⟩ "A" "t3"
      ⟨"e", none, ⟨"Error", "Oops", none⟩⟩
      ⟨"t3", ⟨"e", none, [("type", "Error"), ("message", "Oops")]⟩⟩
      [(⟨"x", none⟩, "t1"), (⟨"y", none⟩, "t2")]
      rfl rfl (by decide) rfl (by decide)).1,
    (c1_flush_ordering ⟨LogLevel.debug, true, none, true⟩ "A" "t3"
      ⟨"e", none, ⟨"Error", "Oops", none⟩⟩
      ⟨"t3", ⟨"e", none, [("type", "Error"), ("message", "Oops")]⟩⟩
      [(⟨"x", none⟩, "t1"), (⟨"y", none⟩, "t2")]
      rfl rfl (by decide) rfl (by decide)).2.2⟩

/-- C2 counterexample: an error whose `toJSON` capability throws makes the
error call itself raise before anything is emitted — `serializeError`
invokes the capability with no try/catch, so the call does not complete
and nothing degrades to the base fields. -/
theorem c2_toJSON_throw_counterexample :
    (stepError ⟨LogLevel.debug, true, none, true⟩ emptyState "A" "t"
      ⟨"e", none, ⟨"E", "m", some TJResult.throws⟩⟩).raised = true ∧
    (stepError ⟨LogLevel.debug, true, none, true⟩ emptyState "A" "t"
      ⟨"e", none, ⟨"E", "m", some TJResult.throws⟩⟩).out = [] := by
  decide

/-- C2 (amended): serialization degrades to exactly the base fields
`{type, message}` when the error exposes no `toJSON` or when the spread of
its returned value contributes no fields; but when `toJSON` throws, the
exception propagates out of the error call, which emits nothing and
raises. -/
theorem c2_serialize_error_degrade (cfg : Config) (t : String) (ei : ErrorInfo) :
    (ei.error.toJSON = some TJResult.throws → simpleError cfg t ei = ([], true)) ∧
    (ei.error.toJSON = none →
      serializeError ei.error = Except.ok (baseFields ei.error)) ∧
    (ei.error.toJSON = some (TJResult.returns []) →
      serializeError ei.error = Except.ok (baseFields ei.error)) := by
  refine ⟨?_, ?_, ?_⟩
  · intro h
    simp [simpleError, formatErrorLog, serializeError, h]
  · intro h
    simp [serializeError, h]
  · intro h
    simp [serializeError, h, spreadMerge, List.lookup]

/-- Witness for the amended C2 at concrete inputs: a throwing `toJSON`
raises out of the error call; an absent `toJSON` and an empty spread both
give exactly the base fields. -/
theorem c2_serialize_error_degrade_witness :
    simpleError ⟨LogLevel.debug, true, none, true⟩ "t"
      ⟨"e", none, ⟨"E", "m", some TJResult.throws⟩⟩ = ([], true) ∧
    serializeError ⟨"E", "m", none⟩ = Except.ok [("type", "E"), ("message", "m")] ∧
    serializeError ⟨"E", "m", some (TJResult.returns [])⟩ =
      Except.ok [("type", "E"), ("message", "m")] :=
  ⟨(c2_serialize_error_degrade ⟨LogLevel.debug, true, none, true⟩ "t"
      ⟨"e", none, ⟨"E", "m", some TJResult.throws⟩⟩).1 rfl,
    (c2_serialize_error_degrade ⟨LogLevel.debug, true, none, true⟩ "t"
      ⟨"e", none, ⟨"E", "m", none⟩⟩).2.1 rfl,
    (c2_serialize_error_degrade ⟨LogLevel.debug, true, none, true⟩ "t"
      ⟨"e", none, ⟨"E", "m", some (TJResult.returns [])⟩⟩).2.2 rfl⟩

/-- C3 counterexample: a buffered debug payload containing the delimiter
produces a malformed drained segment; the flush then raises to the caller
(no skip, no continuation) and the buffer is not deleted. -/
theorem c3_corrupt_counterexample :
    (runTrace ⟨LogLevel.debug, true, none, true⟩ emptyState
      [Op.debug "A" "t1" ⟨"x", some "<LOGEND>"⟩,
       Op.err "A" "t2" ⟨"e", none, ⟨"Error", "Oops", none⟩⟩]).raised = true ∧
    ((runTrace ⟨LogLevel.debug, true, none, true⟩ emptyState
      [Op.debug "A" "t1" ⟨"x", some "<LOGEND>"⟩,
       Op.err "A" "t2" ⟨"e", none, ⟨"Error", "Oops", none⟩⟩]).st "A").isSome = true := by
  decide

/-- C3 (amended): when a drained buffer segment fails to parse during the
replay of an error call with buffering enabled, the `JSON.parse` exception
propagates to the caller: the call raises, only the error record and the
successfully parsed prefix of segments were emitted, and the stream for
the identifier is never deleted — its map entry survives, drained empty
by the `read()` that preceded the parse. -/
theorem c3_corrupt_segment_aborts (cfg : Config) (st : State) (id t : String)
    (ei : ErrorInfo) (el : ErrorLog) (c : String)
    (hs : cfg.enableLogStreams = true)
    (hok : formatErrorLog t ei = Except.ok el)
    (hb : st id = some c) (hcne : c ≠ "")
    (hraise : (replay cfg (jsSplit SEP c)).2 = true) :
    (stepError cfg st id t ei).raised = true ∧
    (stepError cfg st id t ei).st id = some "" ∧
    (stepError cfg st id t ei).out =
      emit cfg LogLevel.error (Payload.errlog el) ++ (replay cfg (jsSplit SEP c)).1 :=
  stepError_corrupt cfg hs st id t ei el hok c hb hcne hraise

/-- Witness for the amended C3 at a concrete input: a buffer whose single
record contains the delimiter makes the flush raise and emit only the
error record (the malformed first segment parses to nothing, so the replay
prefix is empty), leaving the stream entry present but drained empty. -/
theorem c3_corrupt_segment_aborts_witness :
    ((replay ⟨LogLevel.debug, true, none, true⟩
        (jsSplit SEP (serializeLog ⟨"t1", ⟨"x", some "<LOGEND>"⟩⟩))).2 = true) ∧
    ((stepError ⟨LogLevel.debug, true, none, true⟩
        (updateSt emptyState "A" (some (serializeLog ⟨"t1", ⟨"x", some "<LOGEND>"⟩⟩)))
        "A" "t2" ⟨"e", none, ⟨"Error", "Oops", none⟩⟩).raised = true ∧
      (stepError ⟨LogLevel.debug, true, none, true⟩
        (updateSt emptyState "A" (some (serializeLog ⟨"t1", ⟨"x", some "<LOGEND>"⟩⟩)))
        "A" "t2" ⟨"e", none, ⟨"Error", "Oops", none⟩⟩).st "A" = some "") :=
  ⟨by decide,
    (c3_corrupt_segment_aborts ⟨LogLevel.debug, true, none, true⟩
      (updateSt emptyState "A" (some (serializeLog ⟨"t1", ⟨"x", some "<LOGEND>"⟩⟩)))
      "A" "t2" ⟨"e", none, ⟨"Error", "Oops", none⟩⟩
      ⟨"t2", ⟨"e", none, [("type", "Error"), ("message", "Oops")]⟩⟩
      (serializeLog ⟨"t1", ⟨"x", some "<LOGEND>"⟩⟩)
      rfl rfl (by decide) (by decide) (by decide)).1,
    (c3_corrupt_segment_aborts ⟨LogLevel.debug, true, none, true⟩
      (updateSt emptyState "A" (some (serializeLog ⟨"t1", ⟨"x", some "<LOGEND>"⟩⟩)))
      "A" "t2" ⟨"e", none, ⟨"Error", "Oops", none⟩⟩
      ⟨"t2", ⟨"e", none, [("type", "Error"), ("message", "Oops")]⟩⟩
      (serializeLog ⟨"t1", ⟨"x", some "<LOGEND>"⟩⟩)
      rfl rfl (by decide) (by decide) (by decide)).2.1⟩

/-- C4 counterexample: the delimiter `<LOGEND>` CAN occur inside a
serialized record's content — `JSON.stringify` escapes none of its
characters — so for the payload with details `"<LOGEND>"` the drained
buffer of a single debug call does not split back into the one original
record (it splits into two fragments). -/
theorem c4_delimiter_counterexample :
    containsSeq sepL (serializeLog ⟨"t1", ⟨"x", some "<LOGEND>"⟩⟩).data = true ∧
    ((runTrace ⟨LogLevel.debug, true, none, true⟩ emptyState
        [Op.debug "A" "t1" ⟨"x", some "<LOGEND>"⟩]).st "A").getD "" =
      serializeLog ⟨"t1", ⟨"x", some "<LOGEND>"⟩⟩ ∧
    jsSplit SEP (serializeLog ⟨"t1", ⟨"x", some "<LOGEND>"⟩⟩) ≠
      [serializeLog ⟨"t1", ⟨"x", some "<LOGEND>"⟩⟩] := by
  decide

/-- C4 (amended): for every nonempty sequence of debug payloads appended
under one identifier whose serialized records do not contain the delimiter
token, splitting the drained buffer content on the delimiter yields
exactly the original serialized records, one segment per record. The
delimiter-freedom hypothesis is necessary: the delimiter can occur inside
a serialized record for payloads that contain it. -/
theorem c4_buffer_roundtrip (cfg : Config) (id : String)
    (ps : List (Info × String)) (hs : cfg.enableLogStreams = true)
    (hne : ps ≠ [])
    (hnosep : ∀ p ∈ ps, containsSeq sepL (serOf p).data = false) :
    jsSplit SEP (((runTrace cfg emptyState (debugOps id ps)).st id).getD "") =
      ps.map serOf := by
  cases ps with
  | nil => exact absurd rfl hne
  | cons p ps' =>
    obtain ⟨_, _, hbuf, _⟩ := run_debugs_empty cfg hs id p ps'
    rw [hbuf, Option.getD_some]
    have hns : ∀ l ∈ (p :: ps').map (fun q => formatLog q.2 q.1),
        containsSeq sepL (serializeLog l).data = false := by
      intro l hlm
      rcases List.mem_map.mp hlm with ⟨q, hq, hql⟩
      rw [← hql]
      exact hnosep q hq
    have j1 := jsSplit_serialized ((p :: ps').map (fun q => formatLog q.2 q.1))
    have j2 := j1 (by simp) hns
    have j3 := j2 (List.foldl bufAppend (serOf p) (ps'.map serOf))
    have j4 := j3 (buffer_data p ps')
    rw [j4]
    simp only [List.map_map]
    rfl

/-- Witness for the amended C4 at a concrete input: two delimiter-free
records split back exactly. -/
theorem c4_buffer_roundtrip_witness :
    (([(⟨"x", none⟩, "t1"), (⟨"y", some "d"⟩, "t2")] : List (Info × String)) ≠ []) ∧
    (∀ p ∈ ([(⟨"x", none⟩, "t1"), (⟨"y", some "d"⟩, "t2")] : List (Info × String)),
      containsSeq sepL (serOf p).data = false) ∧
    jsSplit SEP (((runTrace ⟨LogLevel.debug, true, none, true⟩ emptyState
        (debugOps "A" [(⟨"x", none⟩, "t1"), (⟨"y", some "d"⟩, "t2")])).st "A").getD "") =
      [(⟨"x", none⟩, "t1"), (⟨"y", some "d"⟩, "t2")].map serOf :=
  ⟨by decide, by decide,
    c4_buffer_roundtrip ⟨LogLevel.debug, true, none, true⟩ "A"
      [(⟨"x", none⟩, "t1"), (⟨"y", some "d"⟩, "t2")] rfl (by decide) (by decide)⟩

/-- C9 counterexample: with the sink threshold configured at warn
(strictly above debug), a buffered debug record replayed by an error call
does NOT surface at the sink — the re-emission happens through
`logger.info`, and info is below the warn threshold — even though the
buffer is drained and deleted. The claim's assertion fails for warn (and
likewise error) thresholds. -/
theorem c9_threshold_counterexample :
    (runTrace ⟨LogLevel.warn, true, none, true⟩ emptyState
      [Op.debug "A" "t1" ⟨"x", none⟩,
       Op.err "A" "t2" ⟨"e", none, ⟨"Error", "Oops", none⟩⟩]).out =
      [⟨LogLevel.error, [],
        Payload.errlog ⟨"t2", ⟨"e", none, [("type", "Error"), ("message", "Oops")]⟩⟩⟩] ∧
    (runTrace ⟨LogLevel.warn, true, none, true⟩ emptyState
      [Op.debug "A" "t1" ⟨"x", none⟩,
       Op.err "A" "t2" ⟨"e", none, ⟨"Error", "Oops", none⟩⟩]).st "A" = none := by
  decide

/-- C9 (amended): re-emitting buffered debug records at info level makes
them surface when the sink threshold is info — one step strictly above
debug, the case the design rationale targets — for an enabled logger with
buffering on, delimiter-free serialized records and a serializable error;
at warn or error thresholds the info-level replays are gated out. -/
theorem c9_replay_surfaces_at_info (cfg : Config) (id t : String)
    (ei : ErrorInfo) (el : ErrorLog) (ps : List (Info × String))
    (hs : cfg.enableLogStreams = true) (he : cfg.isEnabled = true)
    (hlv : cfg.level = LogLevel.info)
    (hok : formatErrorLog t ei = Except.ok el)
    (hnosep : ∀ p ∈ ps, containsSeq sepL (serOf p).data = false) :
    (runTrace cfg emptyState (debugOps id ps ++ [Op.err id t ei])).out =
      Emitted.mk LogLevel.error (mixinOf cfg) (Payload.errlog el) ::
        ps.map (fun p =>
          Emitted.mk LogLevel.info (mixinOf cfg) (Payload.log (formatLog p.2 p.1))) ∧
    (runTrace cfg emptyState (debugOps id ps ++ [Op.err id t ei])).raised = false :=
  ⟨(run_debugs_error cfg hs he (by rw [hlv]; decide) id t ei el hok ps hnosep).1,
    (run_debugs_error cfg hs he (by rw [hlv]; decide) id t ei el hok ps hnosep).2.1⟩

/-- Witness for the amended C9 at a concrete input: at threshold info, the
buffered debug record surfaces at info level after the error. -/
theorem c9_replay_surfaces_at_info_witness :
    ((⟨LogLevel.info, true, none, true⟩ : Config).level = LogLevel.info) ∧
    (runTrace ⟨LogLevel.info, true, none, true⟩ emptyState
      (debugOps "B" [(⟨"w", none⟩, "s1")] ++
        [Op.err "B" "s2" ⟨"f", none, ⟨"Error", "Boom", none⟩⟩])).out =
      [⟨LogLevel.error, [],
          Payload.errlog ⟨"s2", ⟨"f", none, [("type", "Error"), ("message", "Boom")]⟩⟩⟩,
        ⟨LogLevel.info, [], Payload.log ⟨"s1", ⟨"w", none⟩⟩⟩] :=
  ⟨rfl,
    (c9_replay_surfaces_at_info ⟨LogLevel.info, true, none, true⟩ "B" "s2"
      ⟨"f", none, ⟨"Error", "Boom", none⟩⟩
      ⟨"s2", ⟨"f", none, [("type", "Error"), ("message", "Boom")]⟩⟩
      [(⟨"w", none⟩, "s1")] rfl rfl rfl rfl (by decide)).1⟩

end EasyLogging
